import Mathlib

/-!
Verification of the MCEq_classic core against its specification.

The development shallowly embeds the two layers of the core:

* `MCEq/solvers.py` — the forward-Euler integration backends `solv_numpy`
  and `solv_MKL_sparse`.  Machine floating point is modelled by exact
  rational arithmetic (`ℚ`); numpy arrays are `List ℚ`, dense operator
  matrices are `List (List ℚ)` of rows.
* `MCEq/data.py` — the channel database layer: `HDF5Backend._gen_db_dictionary`,
  `Interactions.load`, `Interactions._set_mod_pprod`, `Interactions.get_matrix`
  and `InteractionCrossSections.get_cs`.

Dictionary state is modelled by association lists, Python exceptions by
`Except`, and the in-place array discipline of the solvers by an explicit
heap of buffers.
-/

/-! ## Vector and matrix operations (exact model of the numpy expressions) -/

/-- Elementwise sum of two arrays, `a + b`. -/
def vadd (a b : List ℚ) : List ℚ := List.zipWith (fun x y => x + y) a b

/-- Scalar times array, `c * v`. -/
def cscale (c : ℚ) (v : List ℚ) : List ℚ := v.map (fun x => c * x)

/-- Array times scalar, `v * c`. -/
def vscale (v : List ℚ) (c : ℚ) : List ℚ := v.map (fun x => x * c)

/-- Dot product of a matrix row with a vector. -/
def dotv (r v : List ℚ) : ℚ := (List.zipWith (fun x y => x * y) r v).sum

/-- Matrix–vector product `m.dot(v)` for a dense row-major matrix. -/
def matvec (m : List (List ℚ)) (v : List ℚ) : List ℚ := m.map (fun r => dotv r v)

/-! ## The forward-Euler solver backends (MCEq/solvers.py) -/

/-- One step of `solv_numpy` (solvers.py line 79):
`phc += (imc.dot(phc) + dmc.dot(ric[step] * phc)) * dxc[step]`. -/
def stepNumpy (int_m dec_m : List (List ℚ)) (dx ri : ℚ) (phc : List ℚ) : List ℚ :=
  vadd phc (vscale (vadd (matvec int_m phc) (matvec dec_m (cscale ri phc))) dx)

/-- The `for step in xrange(nsteps)` loop of `solv_numpy` (solvers.py 78-86),
carrying the remaining fuel, the current step index, the state vector, the
snapshot list `grid_sol` and the checkpoint cursor `grid_step`. -/
def solvNumpyLoop (int_m dec_m : List (List ℚ)) (dX rho_inv : List ℚ)
    (grid_idcs : List Nat) :
    Nat → Nat → List ℚ → List (List ℚ) → Nat → List ℚ × List (List ℚ)
  | 0, _, phc, grid_sol, _ => (phc, grid_sol)
  | fuel + 1, step, phc, grid_sol, grid_step =>
    let phc' := stepNumpy int_m dec_m (dX.getD step 0) (rho_inv.getD step 0) phc
    if grid_idcs ≠ [] ∧ grid_step < grid_idcs.length ∧ grid_idcs.getD grid_step 0 = step then
      solvNumpyLoop int_m dec_m dX rho_inv grid_idcs fuel (step + 1) phc'
        (grid_sol ++ [phc']) (grid_step + 1)
    else
      solvNumpyLoop int_m dec_m dX rho_inv grid_idcs fuel (step + 1) phc' grid_sol grid_step

/-- `solv_numpy` (solvers.py 50-92): forward-Euler integration returning the
final state vector and the list of checkpoint snapshots. -/
def solv_numpy (nsteps : Nat) (dX rho_inv : List ℚ) (int_m dec_m : List (List ℚ))
    (phi : List ℚ) (grid_idcs : List Nat) : List ℚ × List (List ℚ) :=
  solvNumpyLoop int_m dec_m dX rho_inv grid_idcs nsteps 0 phi [] 0

/-- One step of `solv_MKL_sparse` (solvers.py 281-292), following the BLAS
semantics of the three calls:
`gemv`: `delta_phi := 1 * int_m.dot(phi)` (beta = 0 overwrites),
`gemv`: `delta_phi := rho_inv[step] * dec_m.dot(phi) + delta_phi` (beta = 1),
`axpy`: `phi := dX[step] * delta_phi + phi`. -/
def stepMKL (int_m dec_m : List (List ℚ)) (dx ri : ℚ) (phc : List ℚ) : List ℚ :=
  let delta1 := matvec int_m phc
  let delta2 := vadd (cscale ri (matvec dec_m phc)) delta1
  vadd (cscale dx delta2) phc

/-- The integration loop of `solv_MKL_sparse` (solvers.py 281-297); identical
checkpoint bookkeeping to `solvNumpyLoop`. -/
def solvMKLLoop (int_m dec_m : List (List ℚ)) (dX rho_inv : List ℚ)
    (grid_idcs : List Nat) :
    Nat → Nat → List ℚ → List (List ℚ) → Nat → List ℚ × List (List ℚ)
  | 0, _, phc, grid_sol, _ => (phc, grid_sol)
  | fuel + 1, step, phc, grid_sol, grid_step =>
    let phc' := stepMKL int_m dec_m (dX.getD step 0) (rho_inv.getD step 0) phc
    if grid_idcs ≠ [] ∧ grid_step < grid_idcs.length ∧ grid_idcs.getD grid_step 0 = step then
      solvMKLLoop int_m dec_m dX rho_inv grid_idcs fuel (step + 1) phc'
        (grid_sol ++ [phc']) (grid_step + 1)
    else
      solvMKLLoop int_m dec_m dX rho_inv grid_idcs fuel (step + 1) phc' grid_sol grid_step

/-- `solv_MKL_sparse` (solvers.py 200-303): it first takes a private copy
`npphi = np.copy(phi)` of the initial state (value semantics here) and then
runs the same loop with the MKL step. -/
def solv_MKL_sparse (nsteps : Nat) (dX rho_inv : List ℚ) (int_m dec_m : List (List ℚ))
    (phi : List ℚ) (grid_idcs : List Nat) : List ℚ × List (List ℚ) :=
  solvMKLLoop int_m dec_m dX rho_inv grid_idcs nsteps 0 phi [] 0

/-- State after the first `k` integration steps of the (numpy) forward-Euler
recurrence: `phiAfter 0 = phi`, and step `k` applies `dX[k]`, `rho_inv[k]`. -/
def phiAfter (int_m dec_m : List (List ℚ)) (dX rho_inv : List ℚ) (phi : List ℚ) :
    Nat → List ℚ
  | 0 => phi
  | k + 1 =>
    stepNumpy int_m dec_m (dX.getD k 0) (rho_inv.getD k 0)
      (phiAfter int_m dec_m dX rho_inv phi k)

/-- The zero interaction operator of dimension `n`. -/
def zeroMat (n : Nat) : List (List ℚ) := List.replicate n (List.replicate n 0)

/-- Row `i` of the `n × n` identity matrix. -/
def unitRow : Nat → Nat → List ℚ
  | 0, _ => []
  | n + 1, 0 => 1 :: List.replicate n 0
  | n + 1, i + 1 => 0 :: unitRow n i

/-- The identity decay operator of dimension `n`. -/
def idMat (n : Nat) : List (List ℚ) := (List.range n).map (unitRow n)

/-! ## Heap model for the in-place array discipline of the solvers

A numpy array variable is a reference (index) into a heap of buffers.
`solv_numpy` binds `phc = phi` (an alias, solvers.py line 71) and updates the
aliased buffer in place with `phc += ...`, returning `phc`; `solv_MKL_sparse`
allocates a fresh buffer `npphi = np.copy(phi)` (line 254) and works on that. -/

/-- Heap-level view of `solv_numpy`: the caller's buffer `phi` is overwritten
with the final state, and the very same reference is returned. -/
def solvNumpyHeap (nsteps : Nat) (dX rho_inv : List ℚ) (int_m dec_m : List (List ℚ))
    (heap : List (List ℚ)) (phi : Nat) (grid_idcs : List Nat) :
    List (List ℚ) × Nat × List (List ℚ) :=
  let r := solv_numpy nsteps dX rho_inv int_m dec_m (heap.getD phi []) grid_idcs
  (heap.set phi r.1, phi, r.2)

/-- Heap-level view of `solv_MKL_sparse`: a fresh buffer holding a copy of the
initial state is allocated at the end of the heap, all updates go to that
buffer, and its (new) reference is returned; the caller's buffer is untouched. -/
def solvMKLHeap (nsteps : Nat) (dX rho_inv : List ℚ) (int_m dec_m : List (List ℚ))
    (heap : List (List ℚ)) (phi : Nat) (grid_idcs : List Nat) :
    List (List ℚ) × Nat × List (List ℚ) :=
  let r := solv_MKL_sparse nsteps dX rho_inv int_m dec_m (heap.getD phi []) grid_idcs
  (heap ++ [r.1], heap.length, r.2)

/-! ## The channel database layer (MCEq/data.py) -/

/-- A Python value used as a dictionary key or list element in data.py: either
a plain int (the keys and values of the module-level `equivalences` tables) or
a `(pdg, tag)` tuple (the particle keys decoded from `tuple_idcs`). -/
inductive PKey where
  | int : Int → PKey
  | pair : Int → Int → PKey
deriving DecidableEq

/-- Python-2 comparison used by `sorted()` on these mixed lists: values of
distinct types order by type name (so every `int` sorts before every `tuple`),
ints by value, tuples lexicographically. -/
def pkeyLe : PKey → PKey → Bool
  | .int a, .int b => decide (a ≤ b)
  | .int _, .pair _ _ => true
  | .pair _ _, .int _ => false
  | .pair a b, .pair c d => decide (a < c ∨ (a = c ∧ b ≤ d))

/-- Insert into a sorted list, after any element that is `≤` the new one (the
stable position). -/
def pkeyInsert (a : PKey) : List PKey → List PKey
  | [] => [a]
  | b :: t => if pkeyLe b a then b :: pkeyInsert a t else a :: b :: t

/-- Python's `sorted(xs)`: a stable sort by `pkeyLe`, realised as insertion
sort (for this total order every stable comparison sort yields this list). -/
def pySorted (l : List PKey) : List PKey := l.foldr pkeyInsert []

/-- Python's `sorted(list(set(xs)))`. -/
def pySortedSet (l : List PKey) : List PKey := pySorted l.dedup

deriving instance DecidableEq for Except

/-- Python exceptions raised by the embedded data.py code. -/
inductive PyErr where
  | decodeFailed
  | unsupportedPrimary
  | attributeError
  | typeError
  | noIsospinRelation
  | keyError
  | emptyMatrix
deriving DecidableEq

/-- Look up a key in an association list (Python `d[k]` returning `none` for a
missing key, and `d.keys()` membership via `isSome`). -/
def assocFind {α β : Type} [DecidableEq α] (l : List (α × β)) (k : α) : Option β :=
  (l.find? (fun e => decide (e.1 = k))).map (fun e => e.2)

/-- `d[k] = v` on an association list: replace the entry if the key exists,
otherwise append it (Python dict insertion order). -/
def assocSet {α β : Type} [DecidableEq α] (l : List (α × β)) (k : α) (v : β) :
    List (α × β) :=
  if (l.find? (fun e => decide (e.1 = k))).isSome then
    l.map (fun e => if e.1 = k then (k, v) else e)
  else
    l ++ [(k, v)]

/-- `relations[p].append(c)` on a `defaultdict(lambda: [])`: append `c` to the
list at key `p`, creating the entry `p ↦ [c]` if `p` is absent. -/
def relAppend (rel : List (PKey × List PKey)) (p c : PKey) : List (PKey × List PKey) :=
  if (rel.find? (fun e => decide (e.1 = p))).isSome then
    rel.map (fun e => if e.1 = p then (e.1, e.2 ++ [c]) else e)
  else
    rel ++ [(p, [c])]

/-- One record of the flattened sparse payload handed to
`_gen_db_dictionary`: its `tuple_idcs` entry.  The `D × D` matrix assembled
from the record's data slice is represented by the record's position `tupidx`:
distinct records produce distinct matrix objects, and the read cursor
bookkeeping (`read_idx`, `len_data`) is subsumed by that position. -/
structure DbRecord where
  tup : List Int
deriving DecidableEq

/-- The dictionary returned by `HDF5Backend._gen_db_dictionary` (data.py
132-138), with matrices represented by record positions. -/
structure DbIndex where
  parents : List PKey
  particles : List PKey
  relations : List (PKey × List PKey)
  index_d : List ((PKey × PKey) × Nat)
deriving DecidableEq

/-- The `equivalences['SIBYLL']` table (data.py 24-29). -/
def sibyllEqv : List (PKey × PKey) :=
  [(.int 130, .int 310), (.int 3212, .int 3122), (.int (-3212), .int (-3122))]

/-- The `equivalences['QGSJET']` table (data.py 30-38). -/
def qgsjetEqv : List (PKey × PKey) :=
  [(.int (-2212), .int 2212), (.int (-2112), .int 2212), (.int (-211), .int 211),
   (.int (-321), .int 321), (.int 130, .int 321), (.int 310, .int 321),
   (.int 2112, .int 2212)]

/-- Decode one `tuple_idcs` record (data.py 96-101): a 4-tuple splits into
`(code, tag)` parent and child pairs, a 2-tuple uses tag 0, anything else
raises. -/
def decodeTup : List Int → Except PyErr (PKey × PKey)
  | [a, b] => .ok (.pair a 0, .pair b 0)
  | [a, b, c, d] => .ok (.pair a b, .pair c d)
  | _ => .error .decodeFailed

/-- First component of a particle key, Python `p[0]`.  In the source this
subscript is only ever applied to tuple keys; the `int` case is unreachable
there (see `genDb_no_int_key` below) and is given the identity meaning. -/
def pfirst : PKey → Int
  | .pair a _ => a
  | .int n => n

/-- Loop body state of `_gen_db_dictionary`: the accumulated `particle_list`,
`relations` and `index_d`. -/
structure GenState where
  plist : List PKey
  rels : List (PKey × List PKey)
  index_d : List ((PKey × PKey) × Nat)

/-- The `for tupidx, tup in enumerate(hdf_root.attrs['tuple_idcs'])` loop of
`_gen_db_dictionary` (data.py 94-130).  A record whose parent or child PDG
magnitude is in `exclude` is skipped.  The equivalence branch (data.py
122-128) tests `parent_pdg in equivalences`: the parent is a `(code, tag)`
tuple while the table keys are plain ints, so the test compares a tuple with
an int.  When it fires it would append the alias, share the parent's matrix
entry, and rebind the alias's relation list to the parent's list (the source
aliases the list object; the branch is unreachable for int-keyed tables, see
`genDb_no_int_key`, so the value copy used here is equivalent). -/
def genDbLoop (exclude : List Int) (eqv : List (PKey × PKey)) :
    List DbRecord → Nat → GenState → Except PyErr GenState
  | [], _, st => .ok st
  | r :: rest, tupidx, st =>
    match decodeTup r.tup with
    | .error e => .error e
    | .ok (parent, child) =>
      if ((pfirst parent).natAbs : Int) ∈ exclude ∨
          ((pfirst child).natAbs : Int) ∈ exclude then
        genDbLoop exclude eqv rest (tupidx + 1) st
      else
        let plist1 := st.plist ++ [parent, child]
        let index1 := assocSet st.index_d (parent, child) tupidx
        let rels1 := relAppend st.rels parent child
        match assocFind eqv parent with
        | some alias0 =>
          let plist2 := plist1 ++ [alias0]
          let index2 := assocSet index1 (alias0, child)
            ((assocFind index1 (parent, child)).getD tupidx)
          let rels2 := assocSet rels1 alias0 ((assocFind rels1 parent).getD [])
          genDbLoop exclude eqv rest (tupidx + 1) ⟨plist2, rels2, index2⟩
        | none =>
          genDbLoop exclude eqv rest (tupidx + 1) ⟨plist1, rels1, index1⟩

/-- `HDF5Backend._gen_db_dictionary` (data.py 77-138), restricted to the
relation-graph content: parents are the sorted relation keys, particles the
sorted deduplicated `particle_list`. -/
def genDb (recs : List DbRecord) (exclude : List Int) (eqv : List (PKey × PKey)) :
    Except PyErr DbIndex :=
  match genDbLoop exclude eqv recs 0 ⟨[], [], []⟩ with
  | .error e => .error e
  | .ok st =>
    .ok ⟨pySorted (st.rels.map (fun e => e.1)), pySortedSet st.plist, st.rels, st.index_d⟩

/-- `Interactions.load` (data.py 322-371) after `interaction_db` has produced
`idx`: apply, in order, the explicit `parent_list` filter, the
charm-projectile disable (`is_charm_pdgid` lives in `MCEq.misc`, not in src;
it is abstracted as the predicate `isCharm`), the unstable-projectile disable,
and the `allowed_projectiles` filter (active when the configured list is
non-empty, Python truthiness); if any of them ran, regenerate `particles` and
prune relation entries of removed parents; finally, if direct leptons are
disabled or the model name contains DPMJET, strip children with
`10 < abs(c[0]) < 20` from every relation list (without touching
`particles`).  The four parent-filter stages are split off as `loadParents`
and the `regenerate_index` flag as `loadRegen`, both in source order. -/
def loadParents (idx : DbIndex) (parent_list : Option (List PKey))
    (isCharm : Int → Bool) (disable_charm disable_unstable : Bool)
    (allowed_projectiles : List PKey) : List PKey :=
  let p1 := match parent_list with
    | none => idx.parents
    | some pl => idx.parents.filter (fun p => decide (p ∈ pl))
  let p2 := if disable_charm then p1.filter (fun p => ¬ isCharm (pfirst p)) else p1
  let p3 := if disable_unstable then
      p2.filter (fun p => decide (pfirst p ∉ ([2212, 2112, -2212, -2112] : List Int)))
    else p2
  if allowed_projectiles ≠ [] then
    p3.filter (fun p => decide (p ∈ allowed_projectiles))
  else p3

/-- The `regenerate_index` flag of `Interactions.load`: set exactly when one
of the four parent filters was configured. -/
def loadRegen (parent_list : Option (List PKey)) (disable_charm disable_unstable : Bool)
    (allowed_projectiles : List PKey) : Bool :=
  parent_list.isSome || disable_charm || disable_unstable ||
    decide (allowed_projectiles ≠ [])

def interactionsLoad (idx : DbIndex) (parent_list : Option (List PKey))
    (isCharm : Int → Bool) (disable_charm disable_unstable : Bool)
    (allowed_projectiles : List PKey) (disable_direct_leptons : Bool)
    (iam_is_DPMJET : Bool) : DbIndex :=
  let p4 := loadParents idx parent_list isCharm disable_charm disable_unstable
    allowed_projectiles
  let regen := loadRegen parent_list disable_charm disable_unstable allowed_projectiles
  let rels1 := if regen then idx.relations.filter (fun e => decide (e.1 ∈ p4))
    else idx.relations
  let parts1 := if regen then
      pySortedSet (rels1.flatMap (fun e => e.1 :: e.2))
    else idx.particles
  let rels2 := if disable_direct_leptons || iam_is_DPMJET then
      rels1.map (fun e =>
        (e.1, e.2.filter (fun c => ¬ (10 < (pfirst c).natAbs ∧ (pfirst c).natAbs < 20))))
    else rels1
  ⟨p4, parts1, rels2, idx.index_d⟩

/-! ## The production-modification registry (Interactions._set_mod_pprod) -/

/-- A dense modification or yield matrix. -/
abbrev Mat : Type := List (List ℚ)

/-- The key of one registered modification: `(x_func.__name__, args)` with
`args` a 2-tuple whose components the source reads as `args[0]` and
`args[1]`. -/
abbrev ModKey : Type := String × (ℚ × ℚ)

/-- `self.mod_pprod`: a `defaultdict` mapping `(prim_pdg, sec_pdg)` to the
dict of registered modifications for that channel. -/
abbrev Registry : Type := List ((Int × Int) × List (ModKey × Mat))

instance : DecidableEq ((Int × Int) × List (ModKey × Mat)) :=
  have : DecidableEq (List (ModKey × Mat)) := inferInstance
  instDecidableEqProd

instance : DecidableEq Registry :=
  instDecidableEqList

/-- Read `mpli[k]` without side effect: the entry dict, `[]` if absent. -/
def regGet (mpli : Registry) (k : Int × Int) : List (ModKey × Mat) :=
  (assocFind mpli k).getD []

/-- The `defaultdict` auto-vivification performed by evaluating `mpli[k]`:
if `k` is absent an empty dict is materialised under it. -/
def regVivify (mpli : Registry) (k : Int × Int) : Registry :=
  if (assocFind mpli k).isSome then mpli else mpli ++ [(k, [])]

/-- `mpli[k][mk] = m`: vivify the outer entry and set the inner key. -/
def regInsert (mpli : Registry) (k : Int × Int) (mk : ModKey) (m : Mat) : Registry :=
  if (assocFind mpli k).isSome then
    mpli.map (fun e => if e.1 = k then (e.1, assocSet e.2 mk m) else e)
  else
    mpli ++ [(k, [(mk, m)])]

/-- Faithful embedding of `Interactions._set_mod_pprod` (data.py 409-527),
returning the function's outcome together with the registry it leaves behind.
`genMod` stands for `self._gen_mod_matrix(x_func, *args)` (deterministic in
the function name and arguments; `gen_xmat` lives in `MCEq.misc`, not in src).
`info` is also in `MCEq.misc`, not in src; modelled from the spec: logging
plumbing, it prints and returns no value (`None`).  Consequently the
statement `info(...).format(...)` at data.py 442-445 calls `.format` on
`None` and raises `AttributeError` before the modification matrix is built,
so no call that passes the two early-return checks gets further. -/
def setModPprod (genMod : String → ℚ × ℚ → Mat) (parents : List PKey)
    (useIsospin : Bool) (mpli : Registry) (prim sec : Int)
    (fname : String) (args : ℚ × ℚ) : Except PyErr Bool × Registry :=
  if useIsospin ∧ ¬(prim = 2212 ∨ prim = 2112) then
    (.error .unsupportedPrimary, mpli)
  else
    let mpli1 := regVivify mpli (prim, sec)
    let entries := regGet mpli1 (prim, sec)
    if (entries.find? (fun e => decide (e.1 = (fname, args)))).isSome then
      (.ok false, mpli1)
    else if (entries.find? (fun e => decide (e.1.1 = fname ∧ e.1.2.1 = args.1))).isSome then
      (.ok false, mpli1)
    else
      (.error .attributeError, mpli1)

/-- `Interactions._set_mod_pprod` with its two malformed logging statements
(data.py 442-445: `.format` applied to the `None` returned by `info`;
data.py 450-451: `np.count_nonzero` called with a `dtype` keyword it does not
accept) executed as the plain log printing they clearly intend (no-ops).
This exposes the behavior of the remaining code.  Notes kept faithful:
the tuple assignment `prim_pdg, symm_pdg = 2212, 2112` (line 456) rebinds
`prim_pdg` before the `if prim_pdg == 2112` check, so that check reads 2212
and never fires; the unflavored-meson block (469-488) is guarded by
membership of the ints 221/223/333 in `self.parents`, a list of tuples; the
`arg_name == args[0]` comparisons (480, 499) compare a function-name string
with `args[0]` and are false in Python for the distinct types, modelled as
literal `false` here (the two operands do not even share a type). -/
def setModPprodFixed (genMod : String → ℚ × ℚ → Mat) (parents : List PKey)
    (useIsospin : Bool) (mpli : Registry) (prim sec : Int)
    (fname : String) (args : ℚ × ℚ) : Except PyErr Bool × Registry :=
  if useIsospin ∧ ¬(prim = 2212 ∨ prim = 2112) then
    (.error .unsupportedPrimary, mpli)
  else
    let mpli1 := regVivify mpli (prim, sec)
    let entries := regGet mpli1 (prim, sec)
    if (entries.find? (fun e => decide (e.1 = (fname, args)))).isSome then
      (.ok false, mpli1)
    else if (entries.find? (fun e => decide (e.1.1 = fname ∧ e.1.2.1 = args.1))).isSome then
      (.ok false, mpli1)
    else
      let kmat := genMod fname args
      let mpli2 := regInsert mpli1 (prim, sec) (fname, args) kmat
      if ¬useIsospin then (.ok true, mpli2)
      else
        let prim2 : Int := 2212
        let symm : Int := 2112
        let ps : Int × Int := if prim2 = 2112 then (2112, 2212) else (prim2, symm)
        let prim2 := ps.1
        let symm := ps.2
        if sec.natAbs = 211 then
          let mpli3 := regInsert mpli2 (symm, -sec) ("isospin", args) kmat
          if PKey.int 221 ∈ parents ∨ PKey.int 223 ∈ parents ∨ PKey.int 333 ∈ parents then
            let unflv_arg : Option (ℚ × ℚ) :=
              if (assocFind mpli3 (prim2, -sec)).isSome then none
              else some (args.1, (1 / 2) * args.2)
            match unflv_arg with
            | none => (.error .typeError, mpli3)
            | some ua =>
              let unflmat := genMod fname ua
              let mpli4 :=
                [(prim2, (221 : Int)), (prim2, 223), (prim2, 333),
                 (symm, 221), (symm, 223), (symm, 333)].foldl
                  (fun acc t => regInsert acc t ("isospin", ua) unflmat) mpli3
              (.ok true, mpli4)
          else (.ok true, mpli3)
        else if sec.natAbs = 321 then
          let mpli3 := regInsert mpli2 (symm, sec) ("isospin", args) kmat
          let k0_arg : ℚ × ℚ := (args.1, (1 / 2) * args.2)
          let k0mat := genMod fname k0_arg
          let mpli4 :=
            [(prim2, (310 : Int)), (prim2, 130), (symm, 310), (symm, 130)].foldl
              (fun acc t => regInsert acc t ("isospin", k0_arg) k0mat) mpli3
          (.ok true, mpli4)
        else if sec.natAbs = 411 then
          let ssec := Int.sign sec
          let mpli3 := regInsert mpli2 (prim2, ssec * 421) ("isospin", args) kmat
          let mpli4 := regInsert mpli3 (prim2, ssec * 431) ("isospin", args) kmat
          let mpli5 := regInsert mpli4 (symm, sec) ("isospin", args) kmat
          let mpli6 := regInsert mpli5 (symm, ssec * 421) ("isospin", args) kmat
          let mpli7 := regInsert mpli6 (symm, ssec * 431) ("isospin", args) kmat
          (.ok true, mpli7)
        else if (sec.natAbs : Int) = prim2 then
          (.ok true, regInsert mpli2 (symm, symm) ("isospin", args) kmat)
        else if (sec.natAbs : Int) = symm then
          (.ok true, regInsert mpli2 (symm, prim2) ("isospin", args) kmat)
        else
          (.error .noIsospinRelation, mpli2)

/-! ## Channel retrieval (Interactions.get_matrix) -/

/-- `np.sum(m[:, ie-30:ie])` with `ie = 50` (data.py 566-570): the net weight
of columns 20..49 over all rows, the fixed diagnostic energy window of the
leading-particle veto. -/
def windowSum (m : Mat) : ℚ :=
  (List.map (fun row => (List.take 30 (List.drop 20 row)).sum) m).sum

/-- Elementwise product `m * mmat` of two same-shaped numpy matrices. -/
def matHad (a b : Mat) : Mat :=
  List.zipWith (fun r s => List.zipWith (fun x y => x * y) r s) a b

/-- State of an `Interactions` instance as read by `get_matrix`, with the
plain-int PDG keys that the function's docstring and its arithmetic
(`abs(child)`, `-child`) require; the callers that fix the key convention
live in `MCEq.core`, which is not in src. -/
structure IntrState where
  relations : List (Int × List Int)
  index_d : List ((Int × Int) × Mat)
  mod_pprod : Registry

/-- `Interactions.get_matrix` (data.py 542-590).  Raises for an unknown
parent (`self.relations[parent]`) or an unregistered relation; when the
leading-particle veto `disable_leading_mesons` is active, the requested child
is a meson below the PDG-magnitude threshold 2000 and the charge-conjugate
matrix exists, the charge-conjugate matrix is substituted whenever the
requested one dominates the diagnostic window; finally, if modification
entries exist for `(parent, child)`, the first registered one multiplies the
result elementwise (the loop returns on its first iteration).  The function
only reads the state; nothing is stored back. -/
def getMatrix (st : IntrState) (disableLeadingMesons : Bool) (parent child : Int) :
    Except PyErr Mat :=
  match assocFind st.relations parent with
  | none => .error .keyError
  | some rel =>
    if child ∉ rel then .error .emptyMatrix
    else
      match assocFind st.index_d (parent, child) with
      | none => .error .keyError
      | some m =>
        let m1 :=
          if disableLeadingMesons ∧ child.natAbs < 2000 ∧
              (assocFind st.index_d (parent, -child)).isSome then
            let m_anti := (assocFind st.index_d (parent, -child)).getD m
            if windowSum m - windowSum m_anti > 0 then m_anti else m
          else m
        match assocFind st.mod_pprod (parent, child) with
        | some (e :: _) => .ok (matHad m1 e.2)
        | _ => .ok m1

/-! ## Cross-section lookup (InteractionCrossSections.get_cs) -/

/-- Unit constant `GeVfm` (data.py 700). -/
def GeVfm : ℚ := 0.19732696312541853

/-- Unit constant `GeVcm = GeVfm * 1e-13` (data.py 702). -/
def GeVcm : ℚ := GeVfm * 1e-13

/-- Unit constant `GeV2mbarn = 10.0 * GeVfm**2` (data.py 704). -/
def GeV2mbarn : ℚ := 10 * GeVfm ^ 2

/-- Unit conversion `mbarn2cm2 = GeVcm**2 / GeV2mbarn` (data.py 706). -/
def mbarn2cm2 : ℚ := GeVcm ^ 2 / GeV2mbarn

/-- State of an `InteractionCrossSections` instance: the per-projectile
cross-section vectors. -/
structure CsState where
  index_d : List (Int × List ℚ)

/-- `InteractionCrossSections.get_cs` (data.py 740-774): tabulated parents
are returned scaled; otherwise the species-group fallback ladder applies, in
source order: charmed mesons (|pdg| in 411/421/431) use the charged-kaon
entry, the three charmed baryons (|pdg| in 4332/4232/4132) use the nucleon
entry, any remaining 2000 < |pdg| < 5000 uses the nucleon entry, any
5 < |pdg| < 23 gets a zero vector shaped like the nucleon entry, and
everything else uses the charged-pion entry.  A missing fallback entry is a
Python `KeyError`. -/
def getCs (st : CsState) (parent : Int) (mbarn : Bool) : Except PyErr (List ℚ) :=
  let scale : ℚ := if mbarn then 1 else mbarn2cm2
  match assocFind st.index_d parent with
  | some v => .ok (cscale scale v)
  | none =>
    if parent.natAbs = 411 ∨ parent.natAbs = 421 ∨ parent.natAbs = 431 then
      (assocFind st.index_d 321).elim (.error .keyError)
        (fun v => .ok (cscale scale v))
    else if parent.natAbs = 4332 ∨ parent.natAbs = 4232 ∨ parent.natAbs = 4132 then
      (assocFind st.index_d 2212).elim (.error .keyError)
        (fun v => .ok (cscale scale v))
    else if 2000 < parent.natAbs ∧ parent.natAbs < 5000 then
      (assocFind st.index_d 2212).elim (.error .keyError)
        (fun v => .ok (cscale scale v))
    else if 5 < parent.natAbs ∧ parent.natAbs < 23 then
      (assocFind st.index_d 2212).elim (.error .keyError)
        (fun v => .ok (List.replicate v.length 0))
    else
      (assocFind st.index_d 211).elim (.error .keyError)
        (fun v => .ok (cscale scale v))

/-! ## Concrete states and graphs used by the claim instances -/

/-- A key occurring in a relation graph, as a parent key or inside some
relation list. -/
def relMem (rel : List (PKey × List PKey)) (k : PKey) : Prop :=
  ∃ pr ∈ rel, k = pr.1 ∨ k ∈ pr.2

/-- A one-record graph: the single channel `(211, 0) → (13, 0)` (a charged
pion producing a muon, a direct-lepton child). -/
def dbGraphA : DbIndex :=
  (genDb [⟨[211, 13]⟩] [] sibyllEqv).toOption.getD ⟨[], [], [], []⟩

/-- `dbGraphA` loaded with only the direct-lepton strip active. -/
def dbGraphALeptonStripped : DbIndex :=
  interactionsLoad dbGraphA none (fun _ => false) false false [] true false

/-- A one-record graph for the SIBYLL equivalence rule: the single channel
`(130, 0) → (321, 0)` whose parent code 130 is a key of the SIBYLL
equivalence table (130 ↦ 310). -/
def dbGraphB : DbIndex :=
  (genDb [⟨[130, 321]⟩] [] sibyllEqv).toOption.getD ⟨[], [], [], []⟩

/-- A concrete modification-matrix builder standing for `_gen_mod_matrix`:
distinct arguments give distinct matrices. -/
def genModA : String → ℚ × ℚ → Mat := fun _ a => [[a.2]]

/-- A 21-column row whose diagnostic-window (columns 20..49) sum is 3. -/
def mVetoDominant : Mat := [List.replicate 20 0 ++ [3]]

/-- A 21-column row whose diagnostic-window sum is 1. -/
def mVetoOther : Mat := [List.replicate 20 0 ++ [1]]

/-- An `Interactions` state carrying both `(2212, 211)` and `(2212, -211)`
matrices and no registered modification. -/
def stVeto : IntrState :=
  ⟨[(2212, [211, -211])],
   [((2212, 211), mVetoDominant), ((2212, -211), mVetoOther)],
   []⟩

/-- An `Interactions` state like `stVeto` but with a modification registered
for the channel `(2212, 211)`. -/
def stModded : IntrState :=
  ⟨[(2212, [211, -211])],
   [((2212, 211), [[2]]), ((2212, -211), [[9]])],
   [((2212, 211), [(("f", (1, 2)), [[3]])])]⟩

/-- A cross-section table with nucleon, kaon and pion entries only. -/
def csTable : CsState := ⟨[(2212, [3]), (321, [5]), (211, [7])]⟩

/-! ## Algebra of the step functions -/

theorem dotv_nil_right (r : List ℚ) : dotv r [] = 0 := by
  simp [dotv]

theorem dotv_cons (a b : ℚ) (r v : List ℚ) :
    dotv (a :: r) (b :: v) = a * b + dotv r v := by
  simp [dotv]

theorem dotv_cscale (c : ℚ) (r : List ℚ) : ∀ v : List ℚ,
    dotv r (cscale c v) = c * dotv r v := by
  induction r with
  | nil => intro v; simp [dotv]
  | cons a r ih =>
    intro v
    cases v with
    | nil => simp [cscale, dotv_nil_right]
    | cons b v => simp [cscale, dotv_cons] at ih ⊢; rw [ih]; ring

theorem matvec_cscale (m : List (List ℚ)) (c : ℚ) (v : List ℚ) :
    matvec m (cscale c v) = cscale c (matvec m v) := by
  unfold matvec cscale
  rw [List.map_map]
  exact List.map_congr_left (fun r _ => dotv_cscale c r v)

theorem vadd_comm (a b : List ℚ) : vadd a b = vadd b a := by
  unfold vadd
  exact List.zipWith_comm_of_comm _ (fun x y => add_comm x y) a b

theorem vscale_eq_cscale (v : List ℚ) (c : ℚ) : vscale v c = cscale c v := by
  unfold vscale cscale
  exact List.map_congr_left (fun x _ => mul_comm x c)

theorem stepMKL_eq_stepNumpy (int_m dec_m : List (List ℚ)) (dx ri : ℚ) (phc : List ℚ) :
    stepMKL int_m dec_m dx ri phc = stepNumpy int_m dec_m dx ri phc := by
  unfold stepMKL stepNumpy
  simp only [← matvec_cscale, vscale_eq_cscale]
  rw [vadd_comm (matvec dec_m (cscale ri phc)) (matvec int_m phc), vadd_comm _ phc]

theorem solvMKLLoop_eq_solvNumpyLoop (int_m dec_m : List (List ℚ)) (dX rho_inv : List ℚ)
    (grid_idcs : List Nat) : ∀ (fuel step : Nat) (phc : List ℚ)
    (grid_sol : List (List ℚ)) (grid_step : Nat),
    solvMKLLoop int_m dec_m dX rho_inv grid_idcs fuel step phc grid_sol grid_step =
      solvNumpyLoop int_m dec_m dX rho_inv grid_idcs fuel step phc grid_sol grid_step := by
  intro fuel
  induction fuel with
  | zero => intro step phc grid_sol grid_step; rfl
  | succ n ih =>
    intro step phc grid_sol grid_step
    unfold solvMKLLoop solvNumpyLoop
    rw [stepMKL_eq_stepNumpy]
    split
    · exact ih _ _ _ _
    · exact ih _ _ _ _

/-! ## Loop invariant of the integration loop -/

theorem solvNumpyLoop_invariant (int_m dec_m : List (List ℚ)) (dX rho_inv : List ℚ)
    (grid_idcs : List Nat) (phi : List ℚ)
    (hsort : List.Pairwise (fun a b => a < b) grid_idcs) :
    ∀ (fuel s g : Nat),
      (∀ k (hk : k < grid_idcs.length), g ≤ k → s ≤ grid_idcs[k]) →
      (∀ k (hk : k < grid_idcs.length), grid_idcs[k] < s + fuel) →
      solvNumpyLoop int_m dec_m dX rho_inv grid_idcs fuel s
          (phiAfter int_m dec_m dX rho_inv phi s)
          ((grid_idcs.take g).map
            (fun j => phiAfter int_m dec_m dX rho_inv phi (j + 1)))
          g
        = (phiAfter int_m dec_m dX rho_inv phi (s + fuel),
           grid_idcs.map (fun j => phiAfter int_m dec_m dX rho_inv phi (j + 1))) := by
  intro fuel
  induction fuel with
  | zero =>
    intro s g hlow hup
    have hlen : grid_idcs.length ≤ g := by
      by_contra hc
      push_neg at hc
      have h1 := hlow g hc le_rfl
      have h2 := hup g hc
      omega
    rw [List.take_of_length_le hlen]
    simp [solvNumpyLoop]
  | succ n ih =>
    intro s g hlow hup
    by_cases hc : grid_idcs ≠ [] ∧ g < grid_idcs.length ∧ grid_idcs.getD g 0 = s
    · have hg : g < grid_idcs.length := hc.2.1
      have hgs : grid_idcs[g] = s := by
        rw [← List.getD_eq_getElem grid_idcs 0 hg]
        exact hc.2.2
      have hstep : (grid_idcs.take g).map
            (fun j => phiAfter int_m dec_m dX rho_inv phi (j + 1)) ++
            [phiAfter int_m dec_m dX rho_inv phi (s + 1)]
          = (grid_idcs.take (g + 1)).map
            (fun j => phiAfter int_m dec_m dX rho_inv phi (j + 1)) := by
        rw [List.take_succ, List.map_append]
        have : grid_idcs[g]? = some grid_idcs[g] := List.getElem?_eq_getElem hg
        rw [this]
        simp [hgs]
      have hlow' : ∀ k (hk : k < grid_idcs.length), g + 1 ≤ k → s + 1 ≤ grid_idcs[k] := by
        intro k hk hgk
        have := List.pairwise_iff_getElem.mp hsort g k hg hk (by omega)
        omega
      have hup' : ∀ k (hk : k < grid_idcs.length), grid_idcs[k] < s + 1 + n := by
        intro k hk
        have := hup k hk
        omega
      have hrec := ih (s + 1) (g + 1) hlow' hup'
      simp only [solvNumpyLoop, if_pos hc]
      rw [show stepNumpy int_m dec_m (dX.getD s 0) (rho_inv.getD s 0)
            (phiAfter int_m dec_m dX rho_inv phi s)
          = phiAfter int_m dec_m dX rho_inv phi (s + 1) from rfl, hstep, hrec]
      have : s + 1 + n = s + (n + 1) := by omega
      rw [this]
    · have hlow' : ∀ k (hk : k < grid_idcs.length), g ≤ k → s + 1 ≤ grid_idcs[k] := by
        intro k hk hgk
        have hne : grid_idcs ≠ [] := by
          intro h
          rw [h] at hk
          simp at hk
        have hg : g < grid_idcs.length := Nat.lt_of_le_of_lt hgk hk
        have hgd : grid_idcs[g] ≠ s := by
          intro h
          exact hc ⟨hne, hg, by rw [List.getD_eq_getElem grid_idcs 0 hg]; exact h⟩
        have hge : s ≤ grid_idcs[g] := hlow g hg le_rfl
        by_cases hkg : k = g
        · subst hkg
          omega
        · have hgk' : g < k := by omega
          have := List.pairwise_iff_getElem.mp hsort g k hg hk hgk'
          omega
      have hup' : ∀ k (hk : k < grid_idcs.length), grid_idcs[k] < s + 1 + n := by
        intro k hk
        have := hup k hk
        omega
      have hrec := ih (s + 1) g (fun k hk hgk => hlow' k hk hgk) hup'
      simp only [solvNumpyLoop, if_neg hc]
      rw [show stepNumpy int_m dec_m (dX.getD s 0) (rho_inv.getD s 0)
            (phiAfter int_m dec_m dX rho_inv phi s)
          = phiAfter int_m dec_m dX rho_inv phi (s + 1) from rfl, hrec]
      have : s + 1 + n = s + (n + 1) := by omega
      rw [this]

/-- Closed form of the full solver run in terms of `phiAfter`, for ascending
in-range checkpoint indices. -/
theorem solv_numpy_closed_form (nsteps : Nat) (dX rho_inv : List ℚ)
    (int_m dec_m : List (List ℚ)) (phi : List ℚ) (grid_idcs : List Nat)
    (hsort : List.Pairwise (fun a b => a < b) grid_idcs)
    (hlt : ∀ j ∈ grid_idcs, j < nsteps) :
    solv_numpy nsteps dX rho_inv int_m dec_m phi grid_idcs
      = (phiAfter int_m dec_m dX rho_inv phi nsteps,
         grid_idcs.map (fun j => phiAfter int_m dec_m dX rho_inv phi (j + 1))) := by
  have := solvNumpyLoop_invariant int_m dec_m dX rho_inv grid_idcs phi hsort nsteps 0 0
    (fun k hk _ => Nat.zero_le _)
    (fun k hk => by
      have := hlt grid_idcs[k] (List.getElem_mem hk)
      omega)
  simpa [solv_numpy, phiAfter] using this

/-! ## The geometric special case (zero interaction, identity decay) -/

theorem cscale_one (v : List ℚ) : cscale 1 v = v := by
  simp [cscale]

theorem dotv_replicate_zero : ∀ (n : Nat) (v : List ℚ),
    dotv (List.replicate n 0) v = 0 := by
  intro n
  induction n with
  | zero => intro v; simp [dotv]
  | succ m ih =>
    intro v
    cases v with
    | nil => exact dotv_nil_right _
    | cons b t =>
      rw [List.replicate_succ, dotv_cons, ih t]
      ring

theorem matvec_zeroMat (n : Nat) (v : List ℚ) :
    matvec (zeroMat n) v = List.replicate n 0 := by
  unfold matvec zeroMat
  rw [List.map_replicate, dotv_replicate_zero]

theorem dotv_unitRow : ∀ (v : List ℚ) (i : Nat), i < v.length →
    dotv (unitRow v.length i) v = v.getD i 0 := by
  intro v
  induction v with
  | nil => intro i hi; simp at hi
  | cons b t ih =>
    intro i hi
    cases i with
    | zero =>
      show dotv (unitRow (t.length + 1) 0) (b :: t) = b
      rw [show unitRow (t.length + 1) 0 = 1 :: List.replicate t.length 0 from rfl,
        dotv_cons, dotv_replicate_zero]
      ring
    | succ j =>
      show dotv (unitRow (t.length + 1) (j + 1)) (b :: t) = t.getD j 0
      rw [show unitRow (t.length + 1) (j + 1) = 0 :: unitRow t.length j from rfl,
        dotv_cons, ih j (by simpa using hi)]
      ring

theorem map_getD_range : ∀ v : List ℚ,
    (List.range v.length).map (fun i => v.getD i 0) = v := by
  intro v
  induction v with
  | nil => rfl
  | cons b t ih =>
    show (List.range (t.length + 1)).map (fun i => (b :: t).getD i 0) = b :: t
    rw [List.range_succ_eq_map, List.map_cons, List.map_map]
    have h : ∀ i ∈ List.range t.length,
        ((fun i => (b :: t).getD i 0) ∘ Nat.succ) i = t.getD i 0 := by
      intro i _
      rfl
    rw [List.map_congr_left h, ih]
    rfl

theorem matvec_idMat (v : List ℚ) : matvec (idMat v.length) v = v := by
  unfold matvec idMat
  rw [List.map_map]
  have h : ∀ i ∈ List.range v.length,
      ((fun r => dotv r v) ∘ unitRow v.length) i = v.getD i 0 := by
    intro i hi
    exact dotv_unitRow v i (List.mem_range.mp hi)
  rw [List.map_congr_left h, map_getD_range]

theorem vadd_replicate_zero : ∀ v : List ℚ, vadd (List.replicate v.length 0) v = v := by
  intro v
  induction v with
  | nil => rfl
  | cons b t ih =>
    show vadd (List.replicate (t.length + 1) 0) (b :: t) = b :: t
    rw [List.replicate_succ]
    unfold vadd at ih ⊢
    rw [List.zipWith_cons_cons, ih, zero_add]

theorem zipWith_self_map (f : ℚ → ℚ → ℚ) (g : ℚ → ℚ) : ∀ v : List ℚ,
    List.zipWith f v (v.map g) = v.map (fun x => f x (g x)) := by
  intro v
  induction v with
  | nil => rfl
  | cons b t ih => simp [ih]

theorem stepNumpy_geometric (n : Nat) (hq : ℚ) (w : List ℚ) (hw : w.length = n) :
    stepNumpy (zeroMat n) (idMat n) hq 1 w = w.map (fun x => x * (1 + hq)) := by
  subst hw
  unfold stepNumpy
  rw [cscale_one, matvec_idMat, matvec_zeroMat, vadd_replicate_zero]
  unfold vscale vadd
  rw [zipWith_self_map]
  exact List.map_congr_left (fun x _ => by ring)

theorem phiAfter_geometric (N : Nat) (hq : ℚ) (phi : List ℚ) :
    ∀ k, k ≤ N →
      phiAfter (zeroMat phi.length) (idMat phi.length)
          (List.replicate N hq) (List.replicate N 1) phi k
        = phi.map (fun x => x * (1 + hq) ^ k) := by
  intro k
  induction k with
  | zero =>
    intro _
    show phi = phi.map (fun x => x * (1 + hq) ^ 0)
    simp
  | succ m ih =>
    intro hm
    have hlt : m < N := by omega
    show stepNumpy (zeroMat phi.length) (idMat phi.length)
        ((List.replicate N hq).getD m 0) ((List.replicate N 1).getD m 0)
        (phiAfter (zeroMat phi.length) (idMat phi.length)
          (List.replicate N hq) (List.replicate N 1) phi m)
      = phi.map (fun x => x * (1 + hq) ^ (m + 1))
    have hd1 : (List.replicate N hq).getD m 0 = hq := by
      rw [List.getD_eq_getElem _ 0 (by simpa using hlt)]
      simp
    have hd2 : (List.replicate N (1 : ℚ)).getD m 0 = 1 := by
      rw [List.getD_eq_getElem _ 0 (by simpa using hlt)]
      simp
    rw [hd1, hd2, ih (by omega),
      stepNumpy_geometric phi.length hq _ (by simp), List.map_map]
    exact List.map_congr_left (fun x _ => by simp [Function.comp]; ring)

/-! ## Relation-graph membership invariants -/

theorem decodeTup_pair (t : List Int) (p c : PKey) (h : decodeTup t = .ok (p, c)) :
    (∃ a b, p = .pair a b) ∧ (∃ a b, c = .pair a b) := by
  cases t with
  | nil => simp [decodeTup] at h
  | cons x1 t1 =>
    cases t1 with
    | nil => simp [decodeTup] at h
    | cons x2 t2 =>
      cases t2 with
      | nil =>
        simp [decodeTup] at h
        exact ⟨⟨x1, 0, h.1.symm⟩, ⟨x2, 0, h.2.symm⟩⟩
      | cons x3 t3 =>
        cases t3 with
        | nil => simp [decodeTup] at h
        | cons x4 t4 =>
          cases t4 with
          | nil =>
            simp [decodeTup] at h
            exact ⟨⟨x1, x2, h.1.symm⟩, ⟨x3, x4, h.2.symm⟩⟩
          | cons x5 t5 => simp [decodeTup] at h

theorem assocFind_pair_none (eqv : List (PKey × PKey))
    (hkeys : ∀ q ∈ eqv, ∀ a b, q.1 ≠ PKey.pair a b) (a b : Int) :
    assocFind eqv (PKey.pair a b) = none := by
  unfold assocFind
  have h : eqv.find? (fun e => decide (e.1 = PKey.pair a b)) = none := by
    rw [List.find?_eq_none]
    intro x hx
    simp only [decide_eq_true_iff]
    exact hkeys x hx a b
  rw [h]
  rfl

theorem relMem_relAppend (rel : List (PKey × List PKey)) (p c k : PKey) :
    relMem (relAppend rel p c) k ↔ k = p ∨ k = c ∨ relMem rel k := by
  unfold relAppend relMem
  by_cases hp : (rel.find? (fun e => decide (e.1 = p))).isSome
  · rw [if_pos hp]
    have hex : ∃ e ∈ rel, e.1 = p := by
      rcases List.find?_isSome.mp hp with ⟨x, hx, hpx⟩
      exact ⟨x, hx, by simpa using hpx⟩
    constructor
    · rintro ⟨pr', hpr', hk⟩
      rcases List.mem_map.mp hpr' with ⟨pr, hpr, rfl⟩
      by_cases heq : pr.1 = p
      · rw [if_pos heq] at hk
        rcases hk with hk | hk
        · left
          rw [hk, heq]
        · rcases List.mem_append.mp hk with hk | hk
          · right; right; exact ⟨pr, hpr, Or.inr hk⟩
          · right; left; simpa using hk
      · rw [if_neg heq] at hk
        right; right; exact ⟨pr, hpr, hk⟩
    · rintro (rfl | rfl | ⟨pr, hpr, hk⟩)
      · rcases hex with ⟨e, he, hep⟩
        refine ⟨(e.1, e.2 ++ [c]), List.mem_map.mpr ⟨e, he, ?_⟩, Or.inl hep.symm⟩
        rw [if_pos hep]
      · rcases hex with ⟨e, he, hep⟩
        refine ⟨(e.1, e.2 ++ [k]), List.mem_map.mpr ⟨e, he, ?_⟩, Or.inr ?_⟩
        · rw [if_pos hep]
        · simp
      · by_cases heq : pr.1 = p
        · refine ⟨(pr.1, pr.2 ++ [c]), List.mem_map.mpr ⟨pr, hpr, ?_⟩, ?_⟩
          · rw [if_pos heq, heq]
          · rcases hk with hk | hk
            · exact Or.inl hk
            · exact Or.inr (List.mem_append.mpr (Or.inl hk))
        · exact ⟨pr, List.mem_map.mpr ⟨pr, hpr, by rw [if_neg heq]⟩, hk⟩
  · rw [if_neg hp]
    constructor
    · rintro ⟨pr, hpr, hk⟩
      rcases List.mem_append.mp hpr with h | h
      · right; right; exact ⟨pr, h, hk⟩
      · simp only [List.mem_singleton] at h
        subst h
        rcases hk with hk | hk
        · left; exact hk
        · right; left; simpa using hk
    · rintro (rfl | rfl | ⟨pr, hpr, hk⟩)
      · exact ⟨(k, [c]), List.mem_append.mpr (Or.inr (by simp)), Or.inl rfl⟩
      · exact ⟨(p, [k]), List.mem_append.mpr (Or.inr (by simp)), Or.inr (by simp)⟩
      · exact ⟨pr, List.mem_append.mpr (Or.inl hpr), hk⟩

theorem genDbLoop_inv (exclude : List Int) (eqv : List (PKey × PKey))
    (hkeys : ∀ q ∈ eqv, ∀ a b, q.1 ≠ PKey.pair a b) :
    ∀ (recs : List DbRecord) (tupidx : Nat) (st st' : GenState),
      genDbLoop exclude eqv recs tupidx st = .ok st' →
      (∀ k, k ∈ st.plist ↔ relMem st.rels k) →
      (∀ k, k ∈ st'.plist ↔ relMem st'.rels k) := by
  intro recs
  induction recs with
  | nil =>
    intro tupidx st st' h hinv
    unfold genDbLoop at h
    injection h with h
    subst h
    exact hinv
  | cons r rest ih =>
    intro tupidx st st' h hinv
    unfold genDbLoop at h
    split at h
    · exact absurd h (by simp)
    · rename_i pc parent child hd
      split at h
      · exact ih _ _ _ h hinv
      · split at h
        · rename_i alias0 hsome
          obtain ⟨⟨a, b, rfl⟩, _⟩ := decodeTup_pair r.tup parent child hd
          rw [assocFind_pair_none eqv hkeys a b] at hsome
          exact absurd hsome (by simp)
        · refine ih _ _ _ h ?_
          intro k
          show k ∈ st.plist ++ [parent, child] ↔
            relMem (relAppend st.rels parent child) k
          rw [relMem_relAppend, List.mem_append, hinv k]
          simp only [List.mem_cons, List.not_mem_nil, or_false]
          tauto

theorem mem_pkeyInsert (a x : PKey) : ∀ l : List PKey,
    a ∈ pkeyInsert x l ↔ a = x ∨ a ∈ l := by
  intro l
  induction l with
  | nil => simp [pkeyInsert]
  | cons b t ih =>
    unfold pkeyInsert
    by_cases hb : pkeyLe b x = true
    · rw [if_pos hb]
      simp only [List.mem_cons, ih]
      tauto
    · rw [if_neg hb]
      simp only [List.mem_cons]

theorem mem_pySorted (a : PKey) : ∀ l : List PKey, a ∈ pySorted l ↔ a ∈ l := by
  intro l
  induction l with
  | nil => simp [pySorted]
  | cons b t ih =>
    show a ∈ pkeyInsert b (pySorted t) ↔ a ∈ b :: t
    rw [mem_pkeyInsert, List.mem_cons, ih]

theorem mem_pySortedSet (a : PKey) (l : List PKey) : a ∈ pySortedSet l ↔ a ∈ l := by
  unfold pySortedSet
  rw [mem_pySorted, List.mem_dedup]

theorem genDb_invariants (recs : List DbRecord) (exclude : List Int)
    (eqv : List (PKey × PKey)) (hkeys : ∀ q ∈ eqv, ∀ a b, q.1 ≠ PKey.pair a b)
    (idx : DbIndex) (hok : genDb recs exclude eqv = .ok idx) :
    (∀ k, k ∈ idx.particles ↔ relMem idx.relations k) ∧
    (∀ k, k ∈ idx.parents ↔ ∃ pr ∈ idx.relations, pr.1 = k) := by
  unfold genDb at hok
  cases hloop : genDbLoop exclude eqv recs 0 ⟨[], [], []⟩ with
  | error e =>
    rw [hloop] at hok
    simp at hok
  | ok st =>
    rw [hloop] at hok
    injection hok with hok
    subst hok
    have hbase : ∀ k : PKey, k ∈ GenState.plist ⟨[], [], []⟩ ↔ relMem (GenState.rels ⟨[], [], []⟩) k := by
      intro k
      simp [relMem]
    have hinv := genDbLoop_inv exclude eqv hkeys recs 0 ⟨[], [], []⟩ st hloop hbase
    constructor
    · intro k
      show k ∈ pySortedSet st.plist ↔ relMem st.rels k
      rw [mem_pySortedSet]
      exact hinv k
    · intro k
      show k ∈ pySorted (st.rels.map (fun e => e.1)) ↔ _
      rw [mem_pySorted]
      exact List.mem_map

theorem mem_of_ite_filter {c : Prop} [Decidable c] (l : List PKey) (p : PKey → Bool)
    (k : PKey) (hk : k ∈ (if c then l.filter p else l)) : k ∈ l := by
  split at hk
  · exact (List.mem_filter.mp hk).1
  · exact hk

theorem loadParents_subset (idx : DbIndex) (parent_list : Option (List PKey))
    (isCharm : Int → Bool) (dcharm dunstable : Bool) (allowed : List PKey) :
    ∀ k ∈ loadParents idx parent_list isCharm dcharm dunstable allowed, k ∈ idx.parents := by
  intro k hk
  unfold loadParents at hk
  have h3 := mem_of_ite_filter _ _ _ hk
  have h2 := mem_of_ite_filter _ _ _ h3
  have h1 := mem_of_ite_filter _ _ _ h2
  cases parent_list with
  | none => exact h1
  | some pl => exact (List.mem_filter.mp h1).1

theorem interactionsLoad_particles_inv (idx : DbIndex)
    (hpart : ∀ k, k ∈ idx.particles ↔ relMem idx.relations k)
    (hpar : ∀ k, k ∈ idx.parents ↔ ∃ pr ∈ idx.relations, pr.1 = k)
    (parent_list : Option (List PKey)) (isCharm : Int → Bool)
    (dcharm dunstable : Bool) (allowed : List PKey) :
    ∀ k,
      k ∈ (interactionsLoad idx parent_list isCharm dcharm dunstable allowed
        false false).particles ↔
      (k ∈ (interactionsLoad idx parent_list isCharm dcharm dunstable allowed
          false false).parents ∨
        ∃ pr ∈ (interactionsLoad idx parent_list isCharm dcharm dunstable allowed
          false false).relations, k ∈ pr.2) := by
  intro k
  unfold interactionsLoad
  dsimp only
  rw [if_neg (by simp : ¬ ((false || false : Bool) = true))]
  by_cases hr : loadRegen parent_list dcharm dunstable allowed = true
  · rw [if_pos hr, if_pos hr]
    rw [mem_pySortedSet, List.mem_flatMap]
    constructor
    · rintro ⟨e, he, hk⟩
      rcases List.mem_cons.mp hk with rfl | hk
      · exact Or.inl (by
          have := (List.mem_filter.mp he).2
          simpa using this)
      · exact Or.inr ⟨e, he, hk⟩
    · rintro (hk | ⟨pr, hpr, hk⟩)
      · have hkp : k ∈ idx.parents :=
          loadParents_subset idx parent_list isCharm dcharm dunstable allowed k hk
        rcases (hpar k).mp hkp with ⟨pr, hpr, hpr1⟩
        refine ⟨pr, List.mem_filter.mpr ⟨hpr, ?_⟩, ?_⟩
        · simpa using hpr1 ▸ hk
        · rw [hpr1]
          exact List.mem_cons_self _ _
      · exact ⟨pr, hpr, List.mem_cons.mpr (Or.inr hk)⟩
  · rw [if_neg hr, if_neg hr]
    have hreg : loadRegen parent_list dcharm dunstable allowed = false := by
      simpa using hr
    have hpl : parent_list = none := by
      cases parent_list with
      | none => rfl
      | some pl => simp [loadRegen] at hreg
    have hdc : dcharm = false := by
      cases dcharm
      · rfl
      · simp [loadRegen] at hreg
    have hdu : dunstable = false := by
      cases dunstable
      · rfl
      · simp [loadRegen] at hreg
    have hal : allowed = [] := by
      by_cases h : allowed = []
      · exact h
      · simp [loadRegen, h] at hreg
    have hlp : loadParents idx parent_list isCharm dcharm dunstable allowed = idx.parents := by
      subst hpl
      subst hdc
      subst hdu
      subst hal
      simp [loadParents]
    rw [hlp]
    rw [hpart k]
    constructor
    · rintro ⟨pr, hpr, rfl | hk⟩
      · exact Or.inl ((hpar pr.1).mpr ⟨pr, hpr, rfl⟩)
      · exact Or.inr ⟨pr, hpr, hk⟩
    · rintro (hk | ⟨pr, hpr, hk⟩)
      · rcases (hpar k).mp hk with ⟨pr, hpr, hpr1⟩
        exact ⟨pr, hpr, Or.inl hpr1.symm⟩
      · exact ⟨pr, hpr, Or.inr hk⟩

/-! ## Claim theorems -/

/-- Claim C1: for every step count N, initial state phi and step size h,
running `solv_numpy` with the zero interaction operator, the identity decay
operator, inverse density `[1]*N` and depth increments `[h]*N` (no
checkpoints) returns the final state `phi * (1+h)^N`; each step performs
`state += (int_m·state + rho_inv[i]·(dec_m·state)) · dX[i]`. -/
theorem c1_forward_euler_geometric (N : Nat) (phi : List ℚ) (h : ℚ) :
    (solv_numpy N (List.replicate N h) (List.replicate N 1)
        (zeroMat phi.length) (idMat phi.length) phi []).1
      = phi.map (fun x => x * (1 + h) ^ N) := by
  rw [solv_numpy_closed_form N (List.replicate N h) (List.replicate N 1)
    (zeroMat phi.length) (idMat phi.length) phi [] (by simp) (by simp)]
  exact phiAfter_geometric N h phi N le_rfl

/-- Claim C2: for a strictly ascending checkpoint index list with entries in
[0, N), `solv_numpy` returns exactly one snapshot per checkpoint index, the
k-th being a copy of the state immediately after the step with index
`grid_idcs[k]`; snapshots are values in the returned sequence, so later
steps do not alter them. -/
theorem c2_checkpoint_snapshots (nsteps : Nat) (dX rho_inv : List ℚ)
    (int_m dec_m : List (List ℚ)) (phi : List ℚ) (grid_idcs : List Nat)
    (hsort : List.Pairwise (fun a b => a < b) grid_idcs)
    (hlt : ∀ j ∈ grid_idcs, j < nsteps) :
    (solv_numpy nsteps dX rho_inv int_m dec_m phi grid_idcs).2.length
        = grid_idcs.length ∧
    ∀ k (hk : k < grid_idcs.length),
      (solv_numpy nsteps dX rho_inv int_m dec_m phi grid_idcs).2.getD k []
        = phiAfter int_m dec_m dX rho_inv phi (grid_idcs[k] + 1) := by
  rw [solv_numpy_closed_form nsteps dX rho_inv int_m dec_m phi grid_idcs hsort hlt]
  constructor
  · simp
  · intro k hk
    rw [List.getD_eq_getElem _ _ (by simpa using hk), List.getElem_map]

/-- Witness for C2 at the claim's own instance: N = 10 with checkpoints
[2, 5] produces 2 snapshots, equal to the states after steps 2 and 5. -/
theorem c2_checkpoint_snapshots_witness :
    (solv_numpy 10 (List.replicate 10 1) (List.replicate 10 1)
        [[0]] [[1]] [1] [2, 5]).2.length = 2 ∧
    (solv_numpy 10 (List.replicate 10 1) (List.replicate 10 1)
        [[0]] [[1]] [1] [2, 5]).2.getD 0 []
      = phiAfter [[0]] [[1]] (List.replicate 10 1) (List.replicate 10 1) [1] 3 ∧
    (solv_numpy 10 (List.replicate 10 1) (List.replicate 10 1)
        [[0]] [[1]] [1] [2, 5]).2.getD 1 []
      = phiAfter [[0]] [[1]] (List.replicate 10 1) (List.replicate 10 1) [1] 6 := by
  have h := c2_checkpoint_snapshots 10 (List.replicate 10 1) (List.replicate 10 1)
    [[0]] [[1]] [1] [2, 5] (by decide) (by decide)
  exact ⟨h.1, h.2 0 (by decide), h.2 1 (by decide)⟩

/-- Claim C3: on identical inputs the dense backend `solv_numpy` and the
sparse-CPU backend `solv_MKL_sparse` return the same final state and the
same checkpoint snapshots, in exact arithmetic. -/
theorem c3_backends_agree (nsteps : Nat) (dX rho_inv : List ℚ)
    (int_m dec_m : List (List ℚ)) (phi : List ℚ) (grid_idcs : List Nat) :
    solv_MKL_sparse nsteps dX rho_inv int_m dec_m phi grid_idcs
      = solv_numpy nsteps dX rho_inv int_m dec_m phi grid_idcs := by
  unfold solv_MKL_sparse solv_numpy
  exact solvMKLLoop_eq_solvNumpyLoop int_m dec_m dX rho_inv grid_idcs nsteps 0 phi [] 0

/-- Every key of the SIBYLL equivalence table is a plain int, not a tuple. -/
theorem sibyllEqv_keys_not_pair : ∀ q ∈ sibyllEqv, ∀ a b, q.1 ≠ PKey.pair a b := by
  intro q hq a b
  fin_cases hq <;> simp

/-- Counterexample to claim C4 as stated: with the direct-lepton strip
active, the muon key (13, 0) is removed from every relation list of the
built graph, is not a parent, and yet stays in `particles`; the strip does
not regenerate the particle list. -/
theorem c4_lepton_strip_counterexample :
    genDb [⟨[211, 13]⟩] [] sibyllEqv = Except.ok dbGraphA ∧
    PKey.pair 13 0 ∈ dbGraphALeptonStripped.particles ∧
    PKey.pair 13 0 ∉ dbGraphALeptonStripped.parents ∧
    (∀ pr ∈ dbGraphALeptonStripped.relations, PKey.pair 13 0 ∉ pr.2) := by
  decide

/-- Claim C4 (amended): after `Interactions.load` with any combination of the
parent allow-list, charm-projectile and unstable-projectile filters — the
direct-lepton strip inactive and the model not of the DPMJET family — the
particle list is exactly the union of the surviving parents and the children
of surviving parents.  (When the direct-lepton strip is active, children it
removes stay in `particles`, see `c4_lepton_strip_counterexample`.) -/
theorem c4_particles_invariant (recs : List DbRecord) (exclude : List Int)
    (eqv : List (PKey × PKey))
    (hkeys : ∀ q ∈ eqv, ∀ a b, q.1 ≠ PKey.pair a b)
    (idx : DbIndex) (hok : genDb recs exclude eqv = .ok idx)
    (parent_list : Option (List PKey)) (isCharm : Int → Bool)
    (dcharm dunstable : Bool) (allowed : List PKey) :
    ∀ k,
      k ∈ (interactionsLoad idx parent_list isCharm dcharm dunstable allowed
        false false).particles ↔
      (k ∈ (interactionsLoad idx parent_list isCharm dcharm dunstable allowed
          false false).parents ∨
        ∃ pr ∈ (interactionsLoad idx parent_list isCharm dcharm dunstable allowed
          false false).relations, k ∈ pr.2) := by
  obtain ⟨hpart, hpar⟩ := genDb_invariants recs exclude eqv hkeys idx hok
  exact interactionsLoad_particles_inv idx hpart hpar parent_list isCharm
    dcharm dunstable allowed

/-- Witness for C4 on a concretely built graph with the charm filter on. -/
theorem c4_particles_invariant_witness :
    genDb [⟨[211, 13]⟩] [] sibyllEqv = Except.ok dbGraphA ∧
    (PKey.pair 13 0 ∈ (interactionsLoad dbGraphA none (fun _ => false) true false
        [] false false).particles ↔
      (PKey.pair 13 0 ∈ (interactionsLoad dbGraphA none (fun _ => false) true false
          [] false false).parents ∨
        ∃ pr ∈ (interactionsLoad dbGraphA none (fun _ => false) true false
          [] false false).relations, PKey.pair 13 0 ∈ pr.2)) :=
  ⟨by decide,
   c4_particles_invariant [⟨[211, 13]⟩] [] sibyllEqv sibyllEqv_keys_not_pair
     dbGraphA (by decide) none (fun _ => false) true false [] (PKey.pair 13 0)⟩

/-- Claim C5 evaluated at its failing input: building the graph for a parent
with a SIBYLL equivalence rule never links the alias.  The membership test
`parent_pdg in equivalences` (data.py 122) compares the tuple key (130, 0)
with the int keys of the table, so the branch never fires: code 310 appears
nowhere — not in `parents`, `relations`, `index_d` or `particles`. -/
theorem c5_sibyll_alias_never_linked :
    genDb [⟨[130, 321]⟩] [] sibyllEqv = Except.ok dbGraphB ∧
    dbGraphB.parents = [PKey.pair 130 0] ∧
    PKey.int 310 ∉ dbGraphB.parents ∧
    (∀ e ∈ dbGraphB.relations, e.1 ≠ PKey.int 310) ∧
    (∀ e ∈ dbGraphB.index_d, e.1.1 ≠ PKey.int 310) ∧
    PKey.int 310 ∉ dbGraphB.particles := by
  decide

/-- Claim C6 evaluated on both parents: (i) faithfully, any fresh
registration dies with the AttributeError of the malformed logging statement,
registering nothing; (ii) with the logging slips fixed, a neutron-parent
(2112) pion modification registers its companion under parent 2112 — not the
isospin mirror 2212 the claim requires — because line 456 rebinds `prim_pdg`
to 2212 before the `prim_pdg == 2112` check; (iii) for a proton parent the
companion does land on (2112, -211) with the same factor matrix. -/
theorem c6_isospin_companion_behavior :
    ((setModPprod genModA [] true [] 2112 211 "f" (1, 2)).1
        = Except.error PyErr.attributeError ∧
      (setModPprod genModA [] true [] 2112 211 "f" (1, 2)).2
        = [((2112, 211), [])]) ∧
    ((setModPprodFixed genModA [] true [] 2112 211 "f" (1, 2)).1
        = Except.ok true ∧
      regGet (setModPprodFixed genModA [] true [] 2112 211 "f" (1, 2)).2 (2112, -211)
        = [(("isospin", (1, 2)), genModA "f" (1, 2))] ∧
      regGet (setModPprodFixed genModA [] true [] 2112 211 "f" (1, 2)).2 (2212, -211)
        = []) ∧
    regGet (setModPprodFixed genModA [] true [] 2212 211 "f" (1, 2)).2 (2112, -211)
      = [(("isospin", (1, 2)), genModA "f" (1, 2))] := by
  decide

/-- Claim C9 evaluated at its input (proton parent, secondary 13 with no
isospin relation): faithfully the call raises AttributeError at the malformed
logging statement before the base entry is inserted (the registry only gains
the empty auto-vivified slot); with the logging slips fixed the call raises
the no-isospin-relation error after the base entry is already registered,
exactly the non-atomicity the claim describes. -/
theorem c9_failed_registration_state :
    setModPprod genModA [] true [] 2212 13 "f" (1, 2)
        = (Except.error PyErr.attributeError, [((2212, 13), [])]) ∧
    (setModPprodFixed genModA [] true [] 2212 13 "f" (1, 2)).1
        = Except.error PyErr.noIsospinRelation ∧
    regGet (setModPprodFixed genModA [] true [] 2212 13 "f" (1, 2)).2 (2212, 13)
        = [(("f", (1, 2)), genModA "f" (1, 2))] := by
  decide

/-- Claim C7 (amended): provided no production modification is registered for
`(p, c)`, for a meson child under the PDG threshold with both `(p, c)` and
`(p, -c)` matrices present, `get_matrix` with the veto enabled returns the
charge-conjugate matrix exactly when the requested one dominates the
diagnostic window (`s > s'`), returns the requested matrix otherwise, and
with the veto disabled returns the requested matrix; the lookup reads the
state and stores nothing back.  (If a modification is registered the result
is additionally multiplied elementwise by the first registered factor
matrix, see `c7_modification_counterexample`.) -/
theorem c7_leading_veto (st : IntrState) (parent child : Int) (rel : List Int)
    (M Manti : Mat)
    (hrel : assocFind st.relations parent = some rel)
    (hchild : child ∈ rel)
    (hM : assocFind st.index_d (parent, child) = some M)
    (hMa : assocFind st.index_d (parent, -child) = some Manti)
    (hmeson : child.natAbs < 2000)
    (hmod : assocFind st.mod_pprod (parent, child) = none) :
    (windowSum M - windowSum Manti > 0 →
      getMatrix st true parent child = .ok Manti) ∧
    (¬ (windowSum M - windowSum Manti > 0) →
      getMatrix st true parent child = .ok M) ∧
    getMatrix st false parent child = .ok M := by
  refine ⟨?_, ?_, ?_⟩
  · intro hgt
    simp [getMatrix, hrel, hM, hMa, hmod, hchild, hmeson, hgt]
  · intro hle
    simp [getMatrix, hrel, hM, hMa, hmod, hchild, hmeson, hle]
  · simp [getMatrix, hrel, hM, hmod, hchild]

/-- Witness for C7: a dominant `(2212, 211)` matrix is swapped for the
`(2212, -211)` one under the veto and returned unchanged without it. -/
theorem c7_leading_veto_witness :
    windowSum mVetoDominant - windowSum mVetoOther > 0 ∧
    getMatrix stVeto true 2212 211 = Except.ok mVetoOther ∧
    getMatrix stVeto false 2212 211 = Except.ok mVetoDominant := by
  have hw : windowSum mVetoDominant - windowSum mVetoOther > 0 := by
    norm_num [windowSum, mVetoDominant, mVetoOther, List.replicate]
  have h := c7_leading_veto stVeto 2212 211 [211, -211] mVetoDominant mVetoOther
    rfl (by decide) rfl rfl (by decide) rfl
  exact ⟨hw, h.1 hw, h.2.2⟩

/-- Counterexample to claim C7 as stated: with the veto disabled but a
modification registered for the channel, `get_matrix` does not return the
stored matrix `[[2]]` unconditionally — it returns the elementwise product
with the first registered factor matrix. -/
theorem c7_modification_counterexample :
    getMatrix stModded false 2212 211 = Except.ok (matHad [[2]] [[3]]) ∧
    matHad [[2]] [[3]] ≠ [[2]] := by
  constructor
  · rfl
  · norm_num [matHad]

/-- Claim C8: for an untabulated parent, `get_cs` falls back by species
group, in the branch order of the source: charmed-meson codes 411/421/431 to
the charged-kaon vector, the charmed-baryon codes 4132/4232/4332 — and any
other code of magnitude in (2000, 5000) — to the nucleon (2212) vector,
codes of magnitude in (5, 23) to a zero vector, and everything else to the
charged-pion vector; each scaled by `mbarn2cm2` when cm² units are requested
and by 1 when mbarn units are requested. -/
theorem c8_cs_fallback (st : CsState) (p : Int) (hp : assocFind st.index_d p = none) :
    (∀ v, assocFind st.index_d 2212 = some v →
      ((p.natAbs = 4132 ∨ p.natAbs = 4232 ∨ p.natAbs = 4332) →
        getCs st p false = .ok (cscale mbarn2cm2 v) ∧ getCs st p true = .ok v) ∧
      (2000 < p.natAbs ∧ p.natAbs < 5000 →
        getCs st p false = .ok (cscale mbarn2cm2 v) ∧ getCs st p true = .ok v) ∧
      (5 < p.natAbs ∧ p.natAbs < 23 →
        getCs st p false = .ok (List.replicate v.length 0) ∧
        getCs st p true = .ok (List.replicate v.length 0))) ∧
    (∀ w, assocFind st.index_d 321 = some w →
      (p.natAbs = 411 ∨ p.natAbs = 421 ∨ p.natAbs = 431) →
        getCs st p false = .ok (cscale mbarn2cm2 w) ∧ getCs st p true = .ok w) ∧
    (∀ u, assocFind st.index_d 211 = some u →
      ¬ (p.natAbs = 411 ∨ p.natAbs = 421 ∨ p.natAbs = 431) →
      ¬ (p.natAbs = 4332 ∨ p.natAbs = 4232 ∨ p.natAbs = 4132) →
      ¬ (2000 < p.natAbs ∧ p.natAbs < 5000) →
      ¬ (5 < p.natAbs ∧ p.natAbs < 23) →
        getCs st p false = .ok (cscale mbarn2cm2 u) ∧ getCs st p true = .ok u) := by
  refine ⟨?_, ?_, ?_⟩
  · intro v hv
    refine ⟨?_, ?_, ?_⟩
    · intro hcb
      have hnd : ¬ (p.natAbs = 411 ∨ p.natAbs = 421 ∨ p.natAbs = 431) := by
        rcases hcb with h | h | h <;> omega
      have hcb' : p.natAbs = 4332 ∨ p.natAbs = 4232 ∨ p.natAbs = 4132 := by
        tauto
      constructor <;>
        simp [getCs, hp, hv, hnd, hcb', cscale_one]
    · intro hrange
      have hnd : ¬ (p.natAbs = 411 ∨ p.natAbs = 421 ∨ p.natAbs = 431) := by omega
      by_cases hcb : p.natAbs = 4332 ∨ p.natAbs = 4232 ∨ p.natAbs = 4132
      · constructor <;> simp [getCs, hp, hv, hnd, hcb, cscale_one]
      · constructor <;> simp [getCs, hp, hv, hnd, hcb, hrange, cscale_one]
    · intro hlep
      have hnd : ¬ (p.natAbs = 411 ∨ p.natAbs = 421 ∨ p.natAbs = 431) := by omega
      have hncb : ¬ (p.natAbs = 4332 ∨ p.natAbs = 4232 ∨ p.natAbs = 4132) := by omega
      have hnr : ¬ (2000 < p.natAbs ∧ p.natAbs < 5000) := by omega
      constructor <;> simp [getCs, hp, hv, hnd, hncb, hnr, hlep]
  · intro w hw hd
    constructor <;> simp [getCs, hp, hw, hd, cscale_one]
  · intro u hu hnd hncb hnr hnl
    constructor <;> simp [getCs, hp, hu, hnd, hncb, hnr, hnl, cscale_one]

/-- Witness for C8: the untabulated charmed baryon 4132 yields the nucleon
vector times the unit conversion (scale 1 in mbarn units); the charmed meson
411 yields the kaon vector; the lepton 13 yields the zero vector. -/
theorem c8_cs_fallback_witness :
    assocFind csTable.index_d 4132 = none ∧
    getCs csTable 4132 false = Except.ok (cscale mbarn2cm2 [3]) ∧
    getCs csTable 4132 true = Except.ok [3] ∧
    getCs csTable 411 true = Except.ok [5] ∧
    getCs csTable 13 true = Except.ok (List.replicate 1 0) := by
  have h4132 := c8_cs_fallback csTable 4132 rfl
  have h411 := c8_cs_fallback csTable 411 rfl
  have h13 := c8_cs_fallback csTable 13 rfl
  refine ⟨rfl, ?_, ?_, ?_, ?_⟩
  · exact ((h4132.1 [3] rfl).1 (Or.inl rfl)).1
  · exact ((h4132.1 [3] rfl).1 (Or.inl rfl)).2
  · exact ((h411.2.1 [5] rfl) (Or.inl rfl)).2
  · exact ((h13.1 [3] rfl).2.2 (by omega)).2

/-- Claim C10: the dense backend works in place — it returns the caller's own
buffer reference, which afterwards holds the final state — while the sparse
backend copies the initial state into a fresh buffer at entry, returns that
new reference, and leaves the caller's buffer unchanged. -/
theorem c10_inplace_alias (nsteps : Nat) (dX rho_inv : List ℚ)
    (int_m dec_m : List (List ℚ)) (heap : List (List ℚ)) (phi : Nat)
    (grid_idcs : List Nat) (hphi : phi < heap.length) :
    (solvNumpyHeap nsteps dX rho_inv int_m dec_m heap phi grid_idcs).2.1 = phi ∧
    (solvNumpyHeap nsteps dX rho_inv int_m dec_m heap phi grid_idcs).1.getD phi []
      = (solv_numpy nsteps dX rho_inv int_m dec_m (heap.getD phi []) grid_idcs).1 ∧
    (solvMKLHeap nsteps dX rho_inv int_m dec_m heap phi grid_idcs).2.1 ≠ phi ∧
    (solvMKLHeap nsteps dX rho_inv int_m dec_m heap phi grid_idcs).1.getD phi []
      = heap.getD phi [] := by
  refine ⟨rfl, ?_, ?_, ?_⟩
  · unfold solvNumpyHeap
    rw [List.getD_eq_getElem _ _ (by simpa using hphi)]
    simp
  · unfold solvMKLHeap
    dsimp only
    omega
  · unfold solvMKLHeap
    dsimp only
    exact List.getD_append _ _ _ phi hphi

/-- Witness for C10 on a two-buffer heap. -/
theorem c10_inplace_alias_witness :
    (solvNumpyHeap 1 [1] [1] [[0]] [[1]] [[5], [7]] 0 []).2.1 = 0 ∧
    (solvNumpyHeap 1 [1] [1] [[0]] [[1]] [[5], [7]] 0 []).1.getD 0 []
      = (solv_numpy 1 [1] [1] [[0]] [[1]] [5] []).1 ∧
    (solvMKLHeap 1 [1] [1] [[0]] [[1]] [[5], [7]] 0 []).2.1 ≠ 0 ∧
    (solvMKLHeap 1 [1] [1] [[0]] [[1]] [[5], [7]] 0 []).1.getD 0 [] = [5] :=
  c10_inplace_alias 1 [1] [1] [[0]] [[1]] [[5], [7]] 0 [] (by decide)
